import Mathlib

/-!
pocket-clone: the SQLite article store

A shallow embedding of `internal/storage/sqlite.go`.  The Go methods issue SQL
statements against the schema created by `Migrate`; the embedding gives every
statement its meaning on an explicit database state:

* a rowid table is the list of its rows in ascending rowid order (the order of
  a table scan);
* `UNIQUE`, `PRIMARY KEY` and `REFERENCES ... ON DELETE CASCADE` are checked or
  applied by the statement that writes (the connection is opened with
  `_foreign_keys=on`);
* a statement that violates a constraint aborts and changes nothing;
* the three triggers `articles_ai`, `articles_ad`, `articles_au` run once for
  each row written by the statement that fires them;
* `AUTOINCREMENT` keeps the largest rowid ever used in `sqlite_sequence`;
* `sql.Result.LastInsertId` is the connection value `last_insert_rowid()`,
  which only a successful `INSERT` outside a trigger changes.

All statements run on one connection (sequential requests reuse the idle
connection of the pool).  Timestamps are seconds as natural numbers; the value
of `CURRENT_TIMESTAMP` is an argument `now` of the operations that read it.
Rowids are unbounded integers: the 2^63 limit of SQLite is out of reach of a
store that assigns them one by one.
-/

namespace PocketClone

/-! ## Data model -/

/-- Go struct `storage.Article`. `SavedAt` is a `time.Time`, `ReadAt` a
`*time.Time` (nil is `none`), `Tags` a slice (nil is the empty list). -/
structure Article where
  ID : Int
  URL : String
  Title : String
  Content : String
  TextContent : String
  Excerpt : String
  Author : String
  ImageURL : String
  SavedAt : Nat
  ReadAt : Option Nat
  Archived : Bool
  Tags : List String
  deriving DecidableEq, Repr

/-- Go struct `storage.Tag`, also the row type of table `tags`. -/
structure Tag where
  ID : Int
  Name : String
  deriving DecidableEq, Repr

/-- Row of table `articles` (columns as declared in `Migrate`). -/
structure ArticleRow where
  id : Int
  url : String
  title : String
  content : String
  text_content : String
  excerpt : String
  author : String
  image_url : String
  saved_at : Nat
  read_at : Option Nat
  archived : Int
  deriving DecidableEq, Repr

/-- Row of table `article_tags`; the table is an ordinary rowid table whose
primary key `(article_id, tag_id)` is a unique index. -/
structure ArticleTagRow where
  rowid : Int
  article_id : Int
  tag_id : Int
  deriving DecidableEq, Repr

/-- Document of the FTS5 index `articles_fts`: the rowid it was indexed under
and the two column values whose tokens were added. -/
structure FtsDoc where
  rowid : Int
  title : String
  text_content : String
  deriving DecidableEq, Repr

/-- Errors the statements of this store can raise. `constraintUnique` is the
duplicate-URL failure of `CreateArticle`, `ErrNoRows` is `sql.ErrNoRows`, the
not-found answer of `QueryRow(...).Scan`. -/
inductive SqlError where
  | constraintUnique
  | constraintForeignKey
  | ErrNoRows
  | invalidQuery
  deriving DecidableEq, Repr

deriving instance DecidableEq for Except

/-- Go `sql.Result` as go-sqlite3 fills it after a statement. -/
structure Result where
  LastInsertId : Int
  RowsAffected : Int
  deriving DecidableEq, Repr

/-- State of the database file together with the connection. -/
structure DB where
  articles : List ArticleRow
  tags : List Tag
  article_tags : List ArticleTagRow
  articles_fts : List FtsDoc
  seq_articles : Int
  seq_tags : Int
  last_insert_rowid : Int
  deriving DecidableEq, Repr

/-- A new database file: no rows, no `sqlite_sequence` entries. -/
def emptyDB : DB :=
  { articles := [], tags := [], article_tags := [], articles_fts := [],
    seq_articles := 0, seq_tags := 0, last_insert_rowid := 0 }

/-- Every statement of `Migrate` is `CREATE ... IF NOT EXISTS`: an absent table,
index or trigger is created empty, an existing one and its rows are left as
they are.  The schema itself is carried by the type `DB` and by the statement
functions below. -/
def Migrate (s : DB) : Except SqlError Unit × DB := (.ok (), s)

/-! ## Engine helpers -/

/-- Largest rowid of a table, 0 for an empty table. -/
def maxRowid : List Int → Int
  | [] => 0
  | x :: xs => max x (maxRowid xs)

/-- Rowid chosen for a table declared `AUTOINCREMENT`. -/
def nextAutoincrement (seq : Int) (rowids : List Int) : Int :=
  max seq (maxRowid rowids) + 1

/-- Document the triggers hand to the index for a row of `articles`. -/
def ftsDoc (r : ArticleRow) : FtsDoc :=
  { rowid := r.id, title := r.title, text_content := r.text_content }

/-- Statement `INSERT INTO articles_fts(rowid, title, text_content)`: the index is
keyed by rowid. -/
def ftsInsert (d : FtsDoc) (idx : List FtsDoc) : List FtsDoc :=
  List.orderedInsert (fun a b => a.rowid ≤ b.rowid) d idx

/-- FTS5 command `'delete'`: retracts the tokens that were indexed for exactly
these column values under this rowid. -/
def ftsDelete (d : FtsDoc) (idx : List FtsDoc) : List FtsDoc :=
  idx.erase d

/-- Clause `LIMIT ? OFFSET ?`: a negative limit means no limit, a negative
offset means 0. -/
def limitOffset {α : Type} (limit offset : Int) (rows : List α) : List α :=
  let rest := rows.drop offset.toNat
  if limit < 0 then rest else rest.take limit.toNat

/-! ## Statements -/

/-- Statement of `CreateArticle`:
`INSERT INTO articles (url, title, content, text_content, excerpt, author, image_url)`,
with the defaults of `saved_at`, `read_at`, `archived` and trigger `articles_ai`. -/
def execInsertArticle (now : Nat) (article : Article) (s : DB) : Except SqlError Result × DB :=
  if ∃ r ∈ s.articles, r.url = article.URL then
    (.error .constraintUnique, s)
  else
    let id := nextAutoincrement s.seq_articles (s.articles.map (fun r => r.id))
    let row : ArticleRow :=
      { id := id, url := article.URL, title := article.Title, content := article.Content,
        text_content := article.TextContent, excerpt := article.Excerpt,
        author := article.Author, image_url := article.ImageURL,
        saved_at := now, read_at := none, archived := 0 }
    (.ok { LastInsertId := id, RowsAffected := 1 },
      { s with
        articles := s.articles ++ [row]
        articles_fts := ftsInsert (ftsDoc row) s.articles_fts
        seq_articles := id
        last_insert_rowid := id })

/-- Statement `UPDATE articles SET ... WHERE id = ?` with trigger `articles_au`
(retract the old document, index the new one) for each updated row. -/
def execUpdateArticles (id : Int) (set : ArticleRow → ArticleRow) (s : DB) :
    Except SqlError Result × DB :=
  let hit := s.articles.filter (fun r => r.id = id)
  (.ok { LastInsertId := s.last_insert_rowid, RowsAffected := hit.length },
    { s with
      articles := s.articles.map (fun r => if r.id = id then set r else r)
      articles_fts := hit.foldl
        (fun idx old => ftsInsert (ftsDoc (set old)) (ftsDelete (ftsDoc old) idx))
        s.articles_fts })

/-- Statement `DELETE FROM articles WHERE id = ?`: for each deleted row the
foreign key of `article_tags` cascades and trigger `articles_ad` retracts the
document. -/
def execDeleteArticle (id : Int) (s : DB) : Except SqlError Result × DB :=
  let hit := s.articles.filter (fun r => r.id = id)
  (.ok { LastInsertId := s.last_insert_rowid, RowsAffected := hit.length },
    { s with
      articles := s.articles.filter (fun r => ¬ r.id = id)
      article_tags := hit.foldl
        (fun links old => links.filter (fun x => ¬ x.article_id = old.id)) s.article_tags
      articles_fts := hit.foldl (fun idx old => ftsDelete (ftsDoc old) idx) s.articles_fts })

/-- Statement `INSERT OR IGNORE INTO tags (name) VALUES (?)`: a name that is
already there is skipped without error and without touching
`last_insert_rowid()`. -/
def execInsertOrIgnoreTag (name : String) (s : DB) : Except SqlError Result × DB :=
  if ∃ t ∈ s.tags, t.Name = name then
    (.ok { LastInsertId := s.last_insert_rowid, RowsAffected := 0 }, s)
  else
    let id := nextAutoincrement s.seq_tags (s.tags.map (fun t => t.ID))
    (.ok { LastInsertId := id, RowsAffected := 1 },
      { s with
        tags := s.tags ++ [{ ID := id, Name := name }]
        seq_tags := id
        last_insert_rowid := id })

/-- Query `SELECT id FROM tags WHERE name = ?` read with `QueryRow(...).Scan`. -/
def queryTagID (name : String) (s : DB) : Except SqlError Int :=
  match s.tags.find? (fun t => t.Name = name) with
  | some t => .ok t.ID
  | none => .error .ErrNoRows

/-- Statement `INSERT OR IGNORE INTO article_tags (article_id, tag_id)`: a pair
that is already there is skipped; a new pair needs both parent rows. -/
def execInsertOrIgnoreArticleTag (articleID tagID : Int) (s : DB) :
    Except SqlError Result × DB :=
  if ∃ x ∈ s.article_tags, x.article_id = articleID ∧ x.tag_id = tagID then
    (.ok { LastInsertId := s.last_insert_rowid, RowsAffected := 0 }, s)
  else if (∃ r ∈ s.articles, r.id = articleID) ∧ (∃ t ∈ s.tags, t.ID = tagID) then
    let rowid := maxRowid (s.article_tags.map (fun x => x.rowid)) + 1
    (.ok { LastInsertId := rowid, RowsAffected := 1 },
      { s with
        article_tags :=
          s.article_tags ++ [{ rowid := rowid, article_id := articleID, tag_id := tagID }]
        last_insert_rowid := rowid })
  else
    (.error .constraintForeignKey, s)

/-- Statement `DELETE FROM article_tags WHERE article_id = ? AND tag_id = ?`. -/
def execDeleteArticleTag (articleID tagID : Int) (s : DB) : Except SqlError Result × DB :=
  let hit := s.article_tags.filter (fun x => x.article_id = articleID ∧ x.tag_id = tagID)
  (.ok { LastInsertId := s.last_insert_rowid, RowsAffected := hit.length },
    { s with
      article_tags :=
        s.article_tags.filter (fun x => ¬ (x.article_id = articleID ∧ x.tag_id = tagID)) })

/-! ## The methods of `SQLiteDB` -/

/-- Go `CreateArticle`: saves a new article and returns its ID. -/
def CreateArticle (now : Nat) (article : Article) (s : DB) : Except SqlError Int × DB :=
  match execInsertArticle now article s with
  | (.error err, s1) => (.error err, s1)
  | (.ok result, s1) => (.ok result.LastInsertId, s1)

/-- Go `GetArticleTags`: names of the tags joined to the article, `ORDER BY t.name`. -/
def GetArticleTags (articleID : Int) (s : DB) : Except SqlError (List String) :=
  let names := s.tags.flatMap (fun t =>
    (s.article_tags.filter (fun x => x.tag_id = t.ID ∧ x.article_id = articleID)).map
      (fun _ => t.Name))
  .ok (names.insertionSort (fun a b => a ≤ b))

/-- Go `GetArticle`: retrieves a single article by ID, with its tags. -/
def GetArticle (id : Int) (s : DB) : Except SqlError Article :=
  match s.articles.find? (fun r => r.id = id) with
  | none => .error .ErrNoRows
  | some r =>
    match GetArticleTags id s with
    | .error err => .error err
    | .ok tags =>
      .ok { ID := r.id, URL := r.url, Title := r.title, Content := r.content,
            TextContent := r.text_content, Excerpt := r.excerpt, Author := r.author,
            ImageURL := r.image_url, SavedAt := r.saved_at, ReadAt := r.read_at,
            Archived := decide (r.archived = 1), Tags := tags }

/-- Article value scanned from the nine columns that `ListArticles`, `Search` and
`GetArticlesByTag` select; `Content`, `TextContent` and `Tags` keep their zero
values. -/
def scanSummary (r : ArticleRow) : Article :=
  { ID := r.id, URL := r.url, Title := r.title, Content := "", TextContent := "",
    Excerpt := r.excerpt, Author := r.author, ImageURL := r.image_url,
    SavedAt := r.saved_at, ReadAt := r.read_at, Archived := decide (r.archived = 1),
    Tags := [] }

/-- Rows selected by the `WHERE` clause that `ListArticles` builds. -/
def whereArchived (archived : Option Bool) (rows : List ArticleRow) : List ArticleRow :=
  match archived with
  | none => rows
  | some true => rows.filter (fun r => r.archived = 1)
  | some false => rows.filter (fun r => r.archived = 0)

/-- Clause `ORDER BY saved_at DESC`: the engine sorts the scanned rows by the one
key and keeps rows with equal keys in scan order. -/
def orderBySavedAtDesc (rows : List ArticleRow) : List ArticleRow :=
  rows.insertionSort (fun a b => b.saved_at ≤ a.saved_at)

/-- Go `ListArticles`: returns articles with optional filtering. -/
def ListArticles (archived : Option Bool) (limit offset : Int) (s : DB) :
    Except SqlError (List Article) :=
  .ok ((limitOffset limit offset (orderBySavedAtDesc (whereArchived archived s.articles))).map
    scanSummary)

/-- Go `UpdateArticle`: updates the archived or read status of an article. -/
def UpdateArticle (now : Nat) (id : Int) (archived markRead : Option Bool) (s : DB) :
    Except SqlError Unit × DB :=
  let first : Except SqlError Unit × DB :=
    match archived with
    | some a =>
      let archivedInt : Int := if a then 1 else 0
      match execUpdateArticles id (fun r => { r with archived := archivedInt }) s with
      | (.error err, s1) => (.error err, s1)
      | (.ok _, s1) => (.ok (), s1)
    | none => (.ok (), s)
  match first with
  | (.error err, s1) => (.error err, s1)
  | (.ok _, s1) =>
    if markRead = some true then
      match execUpdateArticles id (fun r => { r with read_at := some now }) s1 with
      | (.error err, s2) => (.error err, s2)
      | (.ok _, s2) => (.ok (), s2)
    else
      (.ok (), s1)

/-- Go `DeleteArticle`: removes an article. -/
def DeleteArticle (id : Int) (s : DB) : Except SqlError Unit × DB :=
  match execDeleteArticle id s with
  | (.error err, s1) => (.error err, s1)
  | (.ok _, s1) => (.ok (), s1)

/-- Go `CreateTag`. -/
def CreateTag (name : String) (s : DB) : Except SqlError Int × DB :=
  match execInsertOrIgnoreTag name s with
  | (.error err, s1) => (.error err, s1)
  | (.ok result, s1) =>
    let id := result.LastInsertId
    if id = 0 then
      -- Tag already exists, get its ID
      match queryTagID name s1 with
      | .error err => (.error err, s1)
      | .ok found => (.ok found, s1)
    else
      (.ok id, s1)

/-- Go `AddTagToArticle`. -/
def AddTagToArticle (articleID tagID : Int) (s : DB) : Except SqlError Unit × DB :=
  match execInsertOrIgnoreArticleTag articleID tagID s with
  | (.error err, s1) => (.error err, s1)
  | (.ok _, s1) => (.ok (), s1)

/-- Go `RemoveTagFromArticle`. -/
def RemoveTagFromArticle (articleID tagID : Int) (s : DB) : Except SqlError Unit × DB :=
  match execDeleteArticleTag articleID tagID s with
  | (.error err, s1) => (.error err, s1)
  | (.ok _, s1) => (.ok (), s1)

/-- The part of FTS5 that is outside the repository: whether a query string
parses, whether an indexed document matches it, the score behind `rank`
(smaller is better; it may depend on the whole index), and `snippet()`. -/
structure Fts5 where
  parses : String → Bool
  isMatch : String → FtsDoc → Bool
  rank : String → List FtsDoc → FtsDoc → Int
  snippet : String → String → String

/-- Go `Search`: full-text search.  `articles_fts` is joined with `articles` on
`a.id = f.rowid`, restricted by `MATCH`, ordered by `rank` and cut by `LIMIT`;
a non-empty snippet replaces the excerpt. -/
def Search (fts : Fts5) (query : String) (limit : Int) (s : DB) :
    Except SqlError (List Article) :=
  if fts.parses query then
    let joined := (s.articles_fts.filter (fun f => fts.isMatch query f)).flatMap (fun f =>
      (s.articles.filter (fun a => a.id = f.rowid)).map (fun a => (f, a)))
    let ordered := joined.insertionSort (fun x y =>
      fts.rank query s.articles_fts x.1 ≤ fts.rank query s.articles_fts y.1)
    .ok ((limitOffset limit 0 ordered).map (fun x =>
      let a := scanSummary x.2
      let snippet := fts.snippet query x.2.text_content
      if snippet ≠ "" then { a with Excerpt := snippet } else a))
  else
    .error .invalidQuery

/-! ## Reachable states -/

/-- The write operations of the store, with the clock value they read. -/
inductive Op where
  | create (now : Nat) (article : Article)
  | update (now : Nat) (id : Int) (archived markRead : Option Bool)
  | delete (id : Int)
  | createTag (name : String)
  | addTag (articleID tagID : Int)
  | removeTag (articleID tagID : Int)

/-- State after one operation (its result value is dropped). -/
def step (s : DB) : Op → DB
  | .create now article => (CreateArticle now article s).2
  | .update now id archived markRead => (UpdateArticle now id archived markRead s).2
  | .delete id => (DeleteArticle id s).2
  | .createTag name => (CreateTag name s).2
  | .addTag articleID tagID => (AddTagToArticle articleID tagID s).2
  | .removeTag articleID tagID => (RemoveTagFromArticle articleID tagID s).2

/-- State reached from a freshly migrated empty store by a sequence of
operations. -/
def run (ops : List Op) : DB :=
  ops.foldl step (Migrate emptyDB).2

/-- The integrity conditions the engine maintains: rowids of `articles` ascend
(so they are distinct), `url` is unique, the index holds exactly one document
for each article with its current `title` and `text_content`, every
`article_tags.article_id` refers to a stored article, and no pair
`(article_id, tag_id)` is stored twice. -/
def WF (s : DB) : Prop :=
  s.articles.Pairwise (fun a b => a.id < b.id) ∧
  (s.articles.map (fun r => r.url)).Nodup ∧
  s.articles_fts = s.articles.map ftsDoc ∧
  (∀ x ∈ s.article_tags, ∃ r ∈ s.articles, r.id = x.article_id) ∧
  s.article_tags.Pairwise (fun x y => ¬ (x.article_id = y.article_id ∧ x.tag_id = y.tag_id))

instance (s : DB) : Decidable (WF s) := by
  unfold WF
  infer_instance

/-- Article value with only the seven fields `CreateArticle` reads. -/
def mkArticle (url title content text excerpt author image : String) : Article :=
  { ID := 0, URL := url, Title := title, Content := content, TextContent := text,
    Excerpt := excerpt, Author := author, ImageURL := image, SavedAt := 0,
    ReadAt := none, Archived := false, Tags := [] }

/-- Articles obtained by reading the first `n` pages of size `k` one after the
other with no write in between: `ListArticles` at offsets 0, k, 2k, ... -/
def listPages (archived : Option Bool) (k : Int) (s : DB) : Nat → Except SqlError (List Article)
  | 0 => .ok []
  | n + 1 =>
    match listPages archived k s n with
    | .error err => .error err
    | .ok front =>
      match ListArticles archived k (k * n) s with
      | .error err => .error err
      | .ok page => .ok (front ++ page)

/-! ## Request parsing in `internal/handlers/articles.go` -/

/-- Value of a string of decimal digits after the digits read so far; `none` when
a character is not a digit. -/
def parseDigits : List Char → Nat → Option Nat
  | [], acc => some acc
  | c :: cs, acc =>
    if '0' ≤ c ∧ c ≤ '9' then parseDigits cs (acc * 10 + (c.toNat - '0'.toNat)) else none

/-- Go `strconv.Atoi` (standard library, 64-bit `int`): an optional sign followed
by one or more decimal digits, with a value that fits the type; `none` stands
for a non-nil error. -/
def Atoi (s : String) : Option Int :=
  let signed : Bool × List Char :=
    match s.data with
    | [] => (false, [])
    | c :: cs => if c = '-' then (true, cs) else if c = '+' then (false, cs) else (false, c :: cs)
  if signed.2.isEmpty then none
  else
    match parseDigits signed.2 0 with
    | none => none
    | some n =>
      let v : Int := if signed.1 then -(n : Int) else (n : Int)
      if -(2 ^ 63 : Int) ≤ v ∧ v < (2 ^ 63 : Int) then some v else none

namespace Handler

/-- Variable `archived` of `Handler.ListArticles`, from the value of query
parameter `archived` (the empty string when the parameter is absent). -/
def listArchived (a : String) : Option Bool :=
  if a ≠ "" then some (decide (a = "true")) else none

/-- Variable `limit` of `Handler.ListArticles`, the limit it passes to
`ListArticles` and `GetArticlesByTag`, from the value of query parameter
`limit`. -/
def listLimit (l : String) : Int :=
  if l ≠ "" then
    match Atoi l with
    | some parsed => if parsed > 0 ∧ parsed ≤ 100 then parsed else 50
    | none => 50
  else 50

/-- Variable `offset` of `Handler.ListArticles`, the offset it passes to
`ListArticles` and `GetArticlesByTag`, from the value of query parameter
`offset`. -/
def listOffset (o : String) : Int :=
  if o ≠ "" then
    match Atoi o with
    | some parsed => if parsed ≥ 0 then parsed else 0
    | none => 0
  else 0

/-- Variable `limit` of `Handler.Search`, the limit it passes to `Search`, from
the value of query parameter `limit`. -/
def searchLimit (l : String) : Int :=
  if l ≠ "" then
    match Atoi l with
    | some parsed => if parsed > 0 ∧ parsed ≤ 50 then parsed else 20
    | none => 20
  else 20

end Handler

/-! ## Sample data -/

/-- The article of the example in the specification. -/
def sampleGo : Article :=
  mkArticle "https://a.example/1" "Go Concurrency" "<p>goroutines</p>"
    "goroutines and channels" "goroutines" "" ""

/-- A second article with another URL. -/
def sampleRust : Article :=
  mkArticle "https://a.example/2" "Rust Ownership" "<p>borrowing</p>"
    "borrowing and lifetimes" "borrowing" "" ""

/-- Four articles saved at four distinct times, the second one archived. -/
def sampleFour : DB :=
  run [.create 10 sampleGo, .create 20 sampleRust,
       .create 30 (mkArticle "https://a.example/3" "Lean" "" "theorem proving" "" "" ""),
       .create 40 (mkArticle "https://a.example/4" "SQLite" "" "triggers and indexes" "" "" ""),
       .update 50 2 (some true) none]

/-- One article and one tag that are not yet associated. -/
def sampleTagged : DB :=
  run [.create 5 sampleGo, .createTag "go"]

/-- An index engine that accepts every query and matches every document. -/
def matchAll : Fts5 :=
  { parses := fun _ => true, isMatch := fun _ _ => true, rank := fun _ _ _ => 0,
    snippet := fun _ _ => "" }

end PocketClone

namespace PocketClone

/-! ## Engine lemmas -/

theorem le_maxRowid {x : Int} {l : List Int} (h : x ∈ l) : x ≤ maxRowid l := by
  induction l with
  | nil => cases h
  | cons a t ih =>
    simp only [maxRowid]
    rcases List.mem_cons.1 h with h | h
    · subst h; exact le_max_left _ _
    · exact le_trans (ih h) (le_max_right _ _)

theorem lt_nextAutoincrement {x : Int} {l : List Int} (seq : Int) (h : x ∈ l) :
    x < nextAutoincrement seq l := by
  have h1 := le_maxRowid h
  have h2 : maxRowid l ≤ max seq (maxRowid l) := le_max_right _ _
  unfold nextAutoincrement
  omega

/-- A primary-key lookup in a table with ascending rowids hits no row or one. -/
theorem filter_id_cases (x : Int) {l : List ArticleRow}
    (h : l.Pairwise (fun a b => a.id < b.id)) :
    l.filter (fun r => r.id = x) = [] ∨
      ∃ r, r ∈ l ∧ r.id = x ∧ l.filter (fun r => r.id = x) = [r] := by
  induction l with
  | nil => left; rfl
  | cons a t ih =>
    rw [List.pairwise_cons] at h
    obtain ⟨h1, h2⟩ := h
    by_cases ha : a.id = x
    · right
      refine ⟨a, List.mem_cons_self _ _, ha, ?_⟩
      have ht : t.filter (fun r => r.id = x) = [] := by
        rw [List.filter_eq_nil_iff]
        intro b hb
        have := h1 b hb
        simp only [decide_eq_true_eq]
        omega
      simp [List.filter_cons, ha, ht]
    · rcases ih h2 with h | ⟨r, hr, hrx, hf⟩
      · left
        simp [List.filter_cons, ha, h]
      · right
        exact ⟨r, List.mem_cons_of_mem _ hr, hrx, by simp [List.filter_cons, ha, hf]⟩

theorem filter_id_nil_iff (x : Int) (l : List ArticleRow) :
    l.filter (fun r => r.id = x) = [] ↔ ¬ ∃ r ∈ l, r.id = x := by
  simp [List.filter_eq_nil_iff]

theorem filter_ne_id_of_absent (x : Int) {l : List ArticleRow} (h : ¬ ∃ r ∈ l, r.id = x) :
    l.filter (fun r => ¬ r.id = x) = l := by
  rw [List.filter_eq_self]
  intro r hr
  simp only [decide_not, Bool.not_eq_eq_eq_not, Bool.not_true, decide_eq_false_iff_not]
  exact fun e => h ⟨r, hr, e⟩

theorem orderedInsert_rowid_head (d : FtsDoc) {l : List FtsDoc}
    (h : ∀ b ∈ l, d.rowid ≤ b.rowid) : ftsInsert d l = d :: l := by
  cases l with
  | nil => rfl
  | cons b t =>
    have hb := h b (List.mem_cons_self _ _)
    simp [ftsInsert, List.orderedInsert, hb]

theorem ftsInsert_last (d : FtsDoc) {l : List FtsDoc}
    (h : ∀ b ∈ l, b.rowid < d.rowid) : ftsInsert d l = l ++ [d] := by
  induction l with
  | nil => rfl
  | cons b t ih =>
    have hb := h b (List.mem_cons_self _ _)
    have hnot : ¬ d.rowid ≤ b.rowid := by omega
    have ih2 := ih (fun c hc => h c (List.mem_cons_of_mem _ hc))
    unfold ftsInsert at ih2 ⊢
    simp [List.orderedInsert, hnot, ih2]

/-- Trigger `articles_au` on a synchronized index: retracting a document and
indexing the same document again gives the index back. -/
theorem ftsInsert_ftsDelete {d : FtsDoc} {l : List FtsDoc}
    (hs : l.Pairwise (fun a b => a.rowid < b.rowid)) (hd : d ∈ l) :
    ftsInsert d (ftsDelete d l) = l := by
  induction l with
  | nil => cases hd
  | cons a t ih =>
    rw [List.pairwise_cons] at hs
    obtain ⟨h1, h2⟩ := hs
    by_cases had : a = d
    · subst had
      have : ftsDelete a (a :: t) = t := by simp [ftsDelete]
      rw [this]
      exact orderedInsert_rowid_head a (fun b hb => le_of_lt (h1 b hb))
    · have hdt : d ∈ t := by
        rcases List.mem_cons.1 hd with h | h
        · exact absurd h.symm had
        · exact h
      have hlt := h1 d hdt
      have hnot : ¬ d.rowid ≤ a.rowid := by omega
      have he : ftsDelete d (a :: t) = a :: ftsDelete d t := by
        simp [ftsDelete, List.erase_cons, had]
      have ih2 := ih h2 hdt
      rw [he]
      unfold ftsInsert at ih2 ⊢
      simp [List.orderedInsert, hnot, ih2]

/-- Trigger `articles_ad` on a synchronized index: retracting the document of a
stored row leaves the documents of the other rows. -/
theorem ftsDelete_map {r : ArticleRow} {l : List ArticleRow}
    (hs : l.Pairwise (fun a b => a.id < b.id)) (hr : r ∈ l) :
    ftsDelete (ftsDoc r) (l.map ftsDoc) = (l.filter (fun a => ¬ a.id = r.id)).map ftsDoc := by
  induction l with
  | nil => cases hr
  | cons a t ih =>
    rw [List.pairwise_cons] at hs
    obtain ⟨h1, h2⟩ := hs
    by_cases har : a = r
    · subst har
      have ht : t.filter (fun b => ¬ b.id = a.id) = t := by
        rw [List.filter_eq_self]
        intro b hb
        have := h1 b hb
        simp only [decide_not, Bool.not_eq_eq_eq_not, Bool.not_true, decide_eq_false_iff_not]
        omega
      simp only [decide_not] at ht
      simp [ftsDelete, List.filter_cons, ht]
    · have hrt : r ∈ t := by
        rcases List.mem_cons.1 hr with h | h
        · exact absurd h.symm har
        · exact h
      have hlt := h1 r hrt
      have hne : ¬ a.id = r.id := by omega
      have hdoc : ¬ ftsDoc a = ftsDoc r := by
        intro e
        apply hne
        have := congrArg FtsDoc.rowid e
        simpa [ftsDoc] using this
      have ih2 := ih h2 hrt
      unfold ftsDelete at ih2 ⊢
      simp [List.erase_cons, hdoc, List.filter_cons, hne, ih2]

theorem pairwise_rowid_map_ftsDoc {l : List ArticleRow}
    (hs : l.Pairwise (fun a b => a.id < b.id)) :
    (l.map ftsDoc).Pairwise (fun a b => a.rowid < b.rowid) := by
  rw [List.pairwise_map]
  exact hs

end PocketClone

namespace PocketClone

/-! ## The integrity conditions are maintained -/

theorem WF_emptyDB : WF emptyDB := by decide

theorem WF_execInsertArticle {s : DB} (h : WF s) (now : Nat) (article : Article) :
    WF (execInsertArticle now article s).2 := by
  obtain ⟨h1, h2, h3, h4, h5⟩ := h
  unfold execInsertArticle
  split
  · exact ⟨h1, h2, h3, h4, h5⟩
  · rename_i hnew
    have hlt : ∀ a ∈ s.articles,
        a.id < nextAutoincrement s.seq_articles (s.articles.map (fun r => r.id)) :=
      fun a ha => lt_nextAutoincrement _ (List.mem_map_of_mem (fun r => r.id) ha)
    refine ⟨?_, ?_, ?_, ?_, h5⟩
    · simp only [List.pairwise_append, List.pairwise_singleton, List.mem_singleton]
      exact ⟨h1, trivial, fun a ha b hb => by subst hb; exact hlt a ha⟩
    · simp only [List.map_append, List.map_cons, List.map_nil]
      rw [List.nodup_append]
      refine ⟨h2, List.nodup_singleton _, ?_⟩
      intro u hu hu2
      rw [List.mem_singleton] at hu2
      subst hu2
      obtain ⟨r, hr, e⟩ := List.mem_map.1 hu
      exact hnew ⟨r, hr, e⟩
    · simp only [h3, List.map_append, List.map_cons, List.map_nil]
      apply ftsInsert_last
      intro b hb
      obtain ⟨r, hr, e⟩ := List.mem_map.1 hb
      subst e
      exact hlt r hr
    · intro x hx
      obtain ⟨r, hr, e⟩ := h4 x hx
      exact ⟨r, List.mem_append_left _ hr, e⟩

theorem execUpdateArticles_fts {s : DB} (h : WF s) (id : Int) (set : ArticleRow → ArticleRow)
    (hdoc : ∀ r, ftsDoc (set r) = ftsDoc r) :
    (execUpdateArticles id set s).2.articles_fts = s.articles_fts := by
  obtain ⟨h1, -, h3, -, -⟩ := h
  unfold execUpdateArticles
  rcases filter_id_cases id h1 with h0 | ⟨r, hr, -, hf⟩
  · simp only [h0, List.foldl_nil]
  · simp only [hf, List.foldl_cons, List.foldl_nil, hdoc]
    apply ftsInsert_ftsDelete
    · rw [h3]; exact pairwise_rowid_map_ftsDoc h1
    · rw [h3]; exact List.mem_map_of_mem ftsDoc hr

theorem WF_execUpdateArticles {s : DB} (h : WF s) (id : Int) (set : ArticleRow → ArticleRow)
    (hid : ∀ r, (set r).id = r.id) (hurl : ∀ r, (set r).url = r.url)
    (hdoc : ∀ r, ftsDoc (set r) = ftsDoc r) :
    WF (execUpdateArticles id set s).2 := by
  have hfts := execUpdateArticles_fts h id set hdoc
  obtain ⟨h1, h2, h3, h4, h5⟩ := h
  have gid : ∀ r : ArticleRow, (if r.id = id then set r else r).id = r.id := by
    intro r; split <;> simp [hid]
  have gurl : ∀ r : ArticleRow, (if r.id = id then set r else r).url = r.url := by
    intro r; split <;> simp [hurl]
  have gdoc : ∀ r : ArticleRow, ftsDoc (if r.id = id then set r else r) = ftsDoc r := by
    intro r; split <;> simp [hdoc]
  refine ⟨?_, ?_, ?_, ?_, h5⟩
  · show (s.articles.map _).Pairwise _
    rw [List.pairwise_map]
    simpa only [gid] using h1
  · show ((s.articles.map _).map _).Nodup
    rw [List.map_map]
    have : ((fun r : ArticleRow => r.url) ∘ fun r => if r.id = id then set r else r)
        = fun r => r.url := funext gurl
    rw [this]
    exact h2
  · rw [hfts, h3]
    show _ = (s.articles.map _).map ftsDoc
    rw [List.map_map]
    have : (ftsDoc ∘ fun r => if r.id = id then set r else r) = ftsDoc := funext gdoc
    rw [this]
  · intro x hx
    obtain ⟨r, hr, e⟩ := h4 x hx
    exact ⟨_, List.mem_map_of_mem _ hr, by rw [gid, e]⟩

/-- Statement `DELETE FROM articles WHERE id = ?` on a well-formed state: the
row, its associations and its document go, nothing else changes. -/
theorem execDeleteArticle_state {s : DB} (h : WF s) (id : Int) :
    (execDeleteArticle id s).2 =
      { s with
        articles := s.articles.filter (fun r => ¬ r.id = id)
        article_tags := s.article_tags.filter (fun x => ¬ x.article_id = id)
        articles_fts := s.articles_fts.filter (fun d => ¬ d.rowid = id) } := by
  obtain ⟨h1, -, h3, h4, -⟩ := h
  have hfts : (s.articles.map ftsDoc).filter (fun d => ¬ d.rowid = id)
      = (s.articles.filter (fun r => ¬ r.id = id)).map ftsDoc := by
    rw [List.filter_map]
    rfl
  unfold execDeleteArticle
  rcases filter_id_cases id h1 with h0 | ⟨r, hr, hrx, hf⟩
  · have habs : ¬ ∃ r ∈ s.articles, r.id = id := (filter_id_nil_iff id _).1 h0
    have hlinks : s.article_tags.filter (fun x => ¬ x.article_id = id) = s.article_tags := by
      rw [List.filter_eq_self]
      intro x hx
      obtain ⟨r, hr, e⟩ := h4 x hx
      simp only [decide_not, Bool.not_eq_eq_eq_not, Bool.not_true, decide_eq_false_iff_not]
      exact fun e2 => habs ⟨r, hr, e.trans e2⟩
    simp only [h0, List.foldl_nil, hlinks, hfts, filter_ne_id_of_absent id habs, h3]
  · subst hrx
    simp only [hf, List.foldl_cons, List.foldl_nil, hfts, h3, ftsDelete_map h1 hr]

theorem WF_execDeleteArticle {s : DB} (h : WF s) (id : Int) :
    WF (execDeleteArticle id s).2 := by
  rw [execDeleteArticle_state h]
  obtain ⟨h1, h2, h3, h4, h5⟩ := h
  refine ⟨h1.filter _, ?_, ?_, ?_, h5.filter _⟩
  · exact h2.sublist ((List.filter_sublist _).map _)
  · show s.articles_fts.filter _ = (s.articles.filter _).map ftsDoc
    rw [h3, List.filter_map]
    rfl
  · intro x hx
    rw [List.mem_filter] at hx
    obtain ⟨hx1, hx2⟩ := hx
    obtain ⟨r, hr, e⟩ := h4 x hx1
    refine ⟨r, ?_, e⟩
    rw [List.mem_filter]
    refine ⟨hr, ?_⟩
    simp only [decide_not, Bool.not_eq_eq_eq_not, Bool.not_true, decide_eq_false_iff_not] at hx2 ⊢
    rw [e]
    exact hx2

theorem WF_execInsertOrIgnoreTag {s : DB} (h : WF s) (name : String) :
    WF (execInsertOrIgnoreTag name s).2 := by
  unfold execInsertOrIgnoreTag
  split
  · exact h
  · exact h

theorem WF_execInsertOrIgnoreArticleTag {s : DB} (h : WF s) (articleID tagID : Int) :
    WF (execInsertOrIgnoreArticleTag articleID tagID s).2 := by
  unfold execInsertOrIgnoreArticleTag
  split
  · exact h
  · rename_i hnew
    split
    · rename_i hfk
      obtain ⟨h1, h2, h3, h4, h5⟩ := h
      refine ⟨h1, h2, h3, ?_, ?_⟩
      · intro x hx
        rcases List.mem_append.1 hx with hx | hx
        · exact h4 x hx
        · rw [List.mem_singleton] at hx
          subst hx
          exact hfk.1
      · simp only [List.pairwise_append, List.pairwise_singleton, List.mem_singleton]
        refine ⟨h5, trivial, ?_⟩
        intro x hx y hy e
        subst hy
        exact hnew ⟨x, hx, e⟩
    · exact h

theorem WF_execDeleteArticleTag {s : DB} (h : WF s) (articleID tagID : Int) :
    WF (execDeleteArticleTag articleID tagID s).2 := by
  obtain ⟨h1, h2, h3, h4, h5⟩ := h
  refine ⟨h1, h2, h3, ?_, h5.filter _⟩
  intro x hx
  exact h4 x (List.mem_of_mem_filter hx)

end PocketClone

namespace PocketClone

theorem UpdateArticle_state (now : Nat) (id : Int) (archived markRead : Option Bool) (s : DB) :
    UpdateArticle now id archived markRead s =
      (.ok (),
        let s1 := match archived with
          | some a =>
            (execUpdateArticles id
              (fun r => { r with archived := if a then 1 else 0 }) s).2
          | none => s
        if markRead = some true then
          (execUpdateArticles id (fun r => { r with read_at := some now }) s1).2
        else s1) := by
  unfold UpdateArticle
  cases archived <;> by_cases hm : markRead = some true <;> simp [hm, execUpdateArticles]

theorem WF_UpdateArticle {s : DB} (h : WF s) (now : Nat) (id : Int)
    (archived markRead : Option Bool) : WF (UpdateArticle now id archived markRead s).2 := by
  rw [UpdateArticle_state]
  have h1 : WF (match archived with
      | some a =>
        (execUpdateArticles id (fun r => { r with archived := if a then 1 else 0 }) s).2
      | none => s) := by
    cases archived with
    | none => exact h
    | some a =>
      exact WF_execUpdateArticles h id _ (fun _ => rfl) (fun _ => rfl) (fun _ => rfl)
  show WF (if markRead = some true then _ else _)
  split
  · exact WF_execUpdateArticles h1 id _ (fun _ => rfl) (fun _ => rfl) (fun _ => rfl)
  · exact h1

theorem CreateArticle_snd (now : Nat) (article : Article) (s : DB) :
    (CreateArticle now article s).2 = (execInsertArticle now article s).2 := by
  unfold CreateArticle
  generalize execInsertArticle now article s = p
  rcases p with ⟨_ | _, _⟩ <;> rfl

theorem DeleteArticle_eq (id : Int) (s : DB) :
    DeleteArticle id s = (.ok (), (execDeleteArticle id s).2) := rfl

theorem CreateTag_snd (name : String) (s : DB) :
    (CreateTag name s).2 = (execInsertOrIgnoreTag name s).2 := by
  unfold CreateTag
  generalize execInsertOrIgnoreTag name s = p
  rcases p with ⟨_ | result, s1⟩
  · rfl
  · simp only []
    split
    · split <;> rfl
    · rfl

theorem AddTagToArticle_snd (articleID tagID : Int) (s : DB) :
    (AddTagToArticle articleID tagID s).2 = (execInsertOrIgnoreArticleTag articleID tagID s).2 := by
  unfold AddTagToArticle
  generalize execInsertOrIgnoreArticleTag articleID tagID s = p
  rcases p with ⟨_ | _, _⟩ <;> rfl

theorem RemoveTagFromArticle_eq (articleID tagID : Int) (s : DB) :
    RemoveTagFromArticle articleID tagID s = (.ok (), (execDeleteArticleTag articleID tagID s).2) :=
  rfl

theorem WF_step {s : DB} (h : WF s) (op : Op) : WF (step s op) := by
  cases op with
  | create now article =>
    show WF (CreateArticle now article s).2
    rw [CreateArticle_snd]; exact WF_execInsertArticle h now article
  | update now id archived markRead => exact WF_UpdateArticle h now id archived markRead
  | delete id => exact WF_execDeleteArticle h id
  | createTag name =>
    show WF (CreateTag name s).2
    rw [CreateTag_snd]; exact WF_execInsertOrIgnoreTag h name
  | addTag articleID tagID =>
    show WF (AddTagToArticle articleID tagID s).2
    rw [AddTagToArticle_snd]; exact WF_execInsertOrIgnoreArticleTag h articleID tagID
  | removeTag articleID tagID => exact WF_execDeleteArticleTag h articleID tagID

theorem WF_foldl_step (ops : List Op) : ∀ s : DB, WF s → WF (ops.foldl step s) := by
  induction ops with
  | nil => exact fun _ h => h
  | cons op rest ih => exact fun s h => ih (step s op) (WF_step h op)

/-- Every state reachable from a freshly migrated empty store is well-formed. -/
theorem WF_run (ops : List Op) : WF (run ops) :=
  WF_foldl_step ops _ WF_emptyDB

theorem mem_limitOffset {α : Type} {limit offset : Int} {rows : List α} {a : α}
    (h : a ∈ limitOffset limit offset rows) : a ∈ rows := by
  unfold limitOffset at h
  simp only [] at h
  split at h
  · exact List.mem_of_mem_drop h
  · exact List.mem_of_mem_drop (List.mem_of_mem_take h)

theorem eq_of_id_eq {l : List ArticleRow} (hs : l.Pairwise (fun a b => a.id < b.id))
    {a b : ArticleRow} (ha : a ∈ l) (hb : b ∈ l) (e : a.id = b.id) : a = b := by
  have hn : (l.map (fun r => r.id)).Nodup := by
    unfold List.Nodup
    rw [List.pairwise_map]
    exact hs.imp (fun h => ne_of_lt h)
  exact List.inj_on_of_nodup_map hn ha hb e

/-- Every article that `Search` returns is a stored row with the same id. -/
theorem Search_mem {fts : Fts5} {query : String} {limit : Int} {s : DB} {res : List Article}
    (h : Search fts query limit s = .ok res) {a : Article} (ha : a ∈ res) :
    ∃ r ∈ s.articles, r.id = a.ID := by
  unfold Search at h
  split at h
  · simp only [Except.ok.injEq] at h
    subst h
    obtain ⟨x, hx, e⟩ := List.mem_map.1 ha
    have hx2 := (List.mem_insertionSort _).1 (mem_limitOffset hx)
    obtain ⟨f, -, hf⟩ := List.mem_flatMap.1 hx2
    obtain ⟨r, hr, e2⟩ := List.mem_map.1 hf
    refine ⟨r, List.mem_of_mem_filter hr, ?_⟩
    subst e e2
    simp only []
    split <;> rfl
  · cases h

end PocketClone

namespace PocketClone

/-! ## Ordering and paging lemmas -/

theorem limitOffset_sublist {α : Type} (limit offset : Int) (rows : List α) :
    (limitOffset limit offset rows).Sublist rows := by
  unfold limitOffset
  simp only []
  split
  · exact List.drop_sublist _ _
  · exact (List.take_sublist _ _).trans (List.drop_sublist _ _)

theorem whereArchived_sublist (archived : Option Bool) (rows : List ArticleRow) :
    (whereArchived archived rows).Sublist rows := by
  unfold whereArchived
  split
  · exact List.Sublist.refl _
  · exact List.filter_sublist _
  · exact List.filter_sublist _

/-- Inserting a row scanned before all rows of an ordered list keeps the list
ordered by `saved_at` descending with ties in ascending id order. -/
theorem orderedInsert_scanOrder (a : ArticleRow) :
    ∀ l : List ArticleRow,
      l.Pairwise (fun x y => y.saved_at < x.saved_at ∨ (x.saved_at = y.saved_at ∧ x.id < y.id)) →
      (∀ b ∈ l, a.id < b.id) →
      (List.orderedInsert (fun x y => y.saved_at ≤ x.saved_at) a l).Pairwise
        (fun x y => y.saved_at < x.saved_at ∨ (x.saved_at = y.saved_at ∧ x.id < y.id)) := by
  intro l
  induction l with
  | nil => intro _ _; simp
  | cons b t ih =>
    intro hp hid
    rw [List.pairwise_cons] at hp
    obtain ⟨hb, ht⟩ := hp
    have hab := hid b (List.mem_cons_self _ _)
    by_cases hr : b.saved_at ≤ a.saved_at
    · simp only [List.orderedInsert, hr, if_true]
      refine List.Pairwise.cons ?_ (List.Pairwise.cons hb ht)
      intro c hc
      have hac := hid c hc
      rcases List.mem_cons.1 hc with e | hc2
      · subst e
        rcases Nat.lt_or_ge c.saved_at a.saved_at with h | h
        · exact Or.inl h
        · exact Or.inr ⟨Nat.le_antisymm h hr, hac⟩
      · have hbc : c.saved_at ≤ b.saved_at := by
          rcases hb c hc2 with h | h
          · exact Nat.le_of_lt h
          · exact Nat.le_of_eq h.1.symm
        rcases Nat.lt_or_ge c.saved_at a.saved_at with h | h
        · exact Or.inl h
        · exact Or.inr ⟨by omega, hac⟩
    · simp only [List.orderedInsert, hr, if_false]
      refine List.Pairwise.cons ?_ (ih ht (fun c hc => hid c (List.mem_cons_of_mem _ hc)))
      intro c hc
      rcases (List.mem_orderedInsert _).1 hc with e | hc2
      · subst e
        exact Or.inl (by omega)
      · exact hb c hc2

/-- Clause `ORDER BY saved_at DESC` over a scan in ascending id order: newest first,
rows with equal `saved_at` in ascending id order. -/
theorem orderBySavedAtDesc_scanOrder {l : List ArticleRow}
    (h : l.Pairwise (fun a b => a.id < b.id)) :
    (orderBySavedAtDesc l).Pairwise
      (fun x y => y.saved_at < x.saved_at ∨ (x.saved_at = y.saved_at ∧ x.id < y.id)) := by
  unfold orderBySavedAtDesc
  induction l with
  | nil => simp
  | cons a t ih =>
    rw [List.pairwise_cons] at h
    simp only [List.insertionSort]
    apply orderedInsert_scanOrder a _ (ih h.2)
    intro b hb
    exact h.1 b ((List.mem_insertionSort _).1 hb)

theorem orderBySavedAtDesc_perm (l : List ArticleRow) : (orderBySavedAtDesc l).Perm l :=
  List.perm_insertionSort _ l

end PocketClone

namespace PocketClone

/-! ## Claims -/

/-- C1: when the store already holds an article with the url of `article`,
`CreateArticle` fails with the unique-constraint error (the duplicate-URL
failure) and returns the state it was given, so articles, tag associations and
search index are as before; in a store with unique urls exactly one row with
that url remains. -/
theorem createArticle_duplicate_url (s : DB) (now : Nat) (article : Article)
    (h : ∃ r ∈ s.articles, r.url = article.URL) :
    CreateArticle now article s = (.error .constraintUnique, s) ∧
    ((s.articles.map (fun r => r.url)).Nodup →
      ((CreateArticle now article s).2.articles.map (fun r => r.url)).count article.URL = 1) := by
  have hc : CreateArticle now article s = (.error .constraintUnique, s) := by
    unfold CreateArticle execInsertArticle
    rw [if_pos h]
  refine ⟨hc, fun hn => ?_⟩
  rw [hc]
  obtain ⟨r, hr, e⟩ := h
  exact List.count_eq_one_of_mem hn (List.mem_map.2 ⟨r, hr, e⟩)

/-- Witness for C1: saving the sample article a second time. -/
theorem createArticle_duplicate_url_witness :
    (∃ r ∈ (run [.create 5 sampleGo]).articles, r.url = sampleGo.URL) ∧
    (CreateArticle 9 sampleGo (run [.create 5 sampleGo])
        = (.error .constraintUnique, run [.create 5 sampleGo]) ∧
      (((run [.create 5 sampleGo]).articles.map (fun r => r.url)).Nodup →
        ((CreateArticle 9 sampleGo (run [.create 5 sampleGo])).2.articles.map
          (fun r => r.url)).count sampleGo.URL = 1)) :=
  ⟨by decide, createArticle_duplicate_url (run [.create 5 sampleGo]) 9 sampleGo (by decide)⟩

/-- C2: in every state reached from a freshly migrated empty store by any
sequence of operations, the index has a document for an id exactly when an
article with that id is stored, the document of a stored article holds its
current title and text_content (the index is the list of the documents of the
stored articles), and after `DeleteArticle id` every query that parses returns
a result list without that id. -/
theorem index_synchronized (ops : List Op) :
    (∀ id : Int, (∃ d ∈ (run ops).articles_fts, d.rowid = id) ↔
      (∃ r ∈ (run ops).articles, r.id = id)) ∧
    (∀ d ∈ (run ops).articles_fts, ∀ r ∈ (run ops).articles, r.id = d.rowid →
      d.title = r.title ∧ d.text_content = r.text_content) ∧
    (run ops).articles_fts = (run ops).articles.map ftsDoc ∧
    (∀ (fts : Fts5) (id : Int) (query : String) (limit : Int), fts.parses query = true →
      ∃ res, Search fts query limit (DeleteArticle id (run ops)).2 = .ok res ∧
        ∀ a ∈ res, a.ID ≠ id) := by
  obtain ⟨h1, -, h3, -, -⟩ := WF_run ops
  refine ⟨?_, ?_, h3, ?_⟩
  · intro id
    rw [h3]
    constructor
    · rintro ⟨d, hd, e⟩
      obtain ⟨r, hr, e2⟩ := List.mem_map.1 hd
      exact ⟨r, hr, by rw [← e, ← e2]; rfl⟩
    · rintro ⟨r, hr, e⟩
      exact ⟨ftsDoc r, List.mem_map_of_mem ftsDoc hr, e⟩
  · intro d hd r hr e
    rw [h3] at hd
    obtain ⟨r2, hr2, e2⟩ := List.mem_map.1 hd
    subst e2
    have : r = r2 := eq_of_id_eq h1 hr hr2 e
    subst this
    exact ⟨rfl, rfl⟩
  · intro fts id query limit hp
    have hok : ∃ res, Search fts query limit (DeleteArticle id (run ops)).2 = .ok res := by
      unfold Search
      rw [if_pos hp]
      exact ⟨_, rfl⟩
    obtain ⟨res, hres⟩ := hok
    refine ⟨res, hres, ?_⟩
    intro a ha e
    obtain ⟨r, hr, e2⟩ := Search_mem hres ha
    rw [DeleteArticle_eq] at hr
    have hr2 : r ∈ (run ops).articles.filter (fun r => ¬ r.id = id) := hr
    rw [List.mem_filter] at hr2
    have := hr2.2
    simp only [decide_not, Bool.not_eq_eq_eq_not, Bool.not_true, decide_eq_false_iff_not] at this
    exact this (e2.trans e)

/-- Witness for C2: after two articles are saved and the first is deleted, a
query that matches every document returns the second article only. -/
theorem index_synchronized_witness :
    (∃ res, Search matchAll "goroutines" 10
        (DeleteArticle 1 (run [.create 5 sampleGo, .create 6 sampleRust])).2 = .ok res ∧
      ∀ a ∈ res, a.ID ≠ 1) ∧
    (Search matchAll "goroutines" 10
        (DeleteArticle 1 (run [.create 5 sampleGo, .create 6 sampleRust])).2).map
      (fun l => l.map (fun a => a.ID)) = .ok [2] ∧
    (Search matchAll "goroutines" 10 (run [.create 5 sampleGo, .create 6 sampleRust])).map
      (fun l => l.map (fun a => a.ID)) = .ok [1, 2] :=
  ⟨(index_synchronized [.create 5 sampleGo, .create 6 sampleRust]).2.2.2
      matchAll 1 "goroutines" 10 rfl,
    by decide, by decide⟩

end PocketClone

namespace PocketClone

/-- C3 as stated fails: two articles saved in the same second are listed with the
smaller id first, so ties are not in descending id order. -/
theorem listArticles_ties_not_id_descending :
    ∃ res, ListArticles none 10 0 (run [.create 5 sampleGo, .create 5 sampleRust]) = .ok res ∧
      res.map (fun a => (a.ID, a.SavedAt)) = [(1, 5), (2, 5)] ∧
      ¬ res.Pairwise (fun a b =>
          b.SavedAt < a.SavedAt ∨ (a.SavedAt = b.SavedAt ∧ b.ID < a.ID)) :=
  ⟨_, rfl, by decide, by decide⟩

/-- C3 amended: for every well-formed store state, archived filter, limit and
offset, `ListArticles` returns a list ordered by saved_at descending in which any
two articles with equal saved_at appear in ascending id order (the order of the
table scan), so the result is determined by the store contents. -/
theorem listArticles_order (s : DB) (h : WF s) (archived : Option Bool) (limit offset : Int) :
    ∃ res, ListArticles archived limit offset s = .ok res ∧
      res.Pairwise (fun a b =>
        b.SavedAt < a.SavedAt ∨ (a.SavedAt = b.SavedAt ∧ a.ID < b.ID)) := by
  refine ⟨_, rfl, ?_⟩
  rw [List.pairwise_map]
  have h1 : (whereArchived archived s.articles).Pairwise (fun a b => a.id < b.id) :=
    h.1.sublist (whereArchived_sublist archived s.articles)
  exact (orderBySavedAtDesc_scanOrder h1).sublist (limitOffset_sublist limit offset _)

/-- Witness for C3 amended: three articles, two of them saved in the same second. -/
theorem listArticles_order_witness :
    WF (run [.create 5 sampleGo, .create 5 sampleRust, .create 7 (mkArticle "u" "" "" "" "" "" "")]) ∧
    ∃ res, ListArticles none 10 0
        (run [.create 5 sampleGo, .create 5 sampleRust, .create 7 (mkArticle "u" "" "" "" "" "" "")])
        = .ok res ∧
      res.Pairwise (fun a b =>
        b.SavedAt < a.SavedAt ∨ (a.SavedAt = b.SavedAt ∧ a.ID < b.ID)) :=
  ⟨by decide, listArticles_order _ (by decide) none 10 0⟩

/-- C4 as stated fails: updating id 42, which no article has, with both options
present reports success. -/
theorem updateArticle_absent_row_reports_success :
    (¬ ∃ r ∈ (run [.create 5 sampleGo]).articles, r.id = 42) ∧
    (UpdateArticle 9 42 (some true) (some true) (run [.create 5 sampleGo])).1 = .ok () ∧
    (UpdateArticle 9 42 (some true) (some true) (run [.create 5 sampleGo])).1
      ≠ .error .ErrNoRows := by
  decide

/-- C4 amended: for every store state and every id that has no article,
`UpdateArticle` with any options succeeds and leaves the state unchanged. -/
theorem updateArticle_missing_id (s : DB) (now : Nat) (id : Int)
    (archived markRead : Option Bool) (h : ¬ ∃ r ∈ s.articles, r.id = id) :
    UpdateArticle now id archived markRead s = (.ok (), s) := by
  have hmap : ∀ set : ArticleRow → ArticleRow,
      (execUpdateArticles id set s).2 = s := by
    intro set
    unfold execUpdateArticles
    have h0 := (filter_id_nil_iff id s.articles).2 h
    have hm : s.articles.map (fun r => if r.id = id then set r else r) = s.articles := by
      conv_rhs => rw [← List.map_id s.articles]
      apply List.map_congr_left
      intro r hr
      have : ¬ r.id = id := fun e => h ⟨r, hr, e⟩
      simp [this]
    simp only [h0, hm, List.foldl_nil]
  rw [UpdateArticle_state]
  cases archived <;> by_cases hm : markRead = some true <;> simp [hm, hmap]

/-- Witness for C4 amended: id 42 in a store that holds one article with id 1. -/
theorem updateArticle_missing_id_witness :
    (¬ ∃ r ∈ (run [.create 5 sampleGo]).articles, r.id = 42) ∧
    UpdateArticle 9 42 (some false) (some true) (run [.create 5 sampleGo])
      = (.ok (), run [.create 5 sampleGo]) :=
  ⟨by decide, updateArticle_missing_id _ 9 42 (some false) (some true) (by decide)⟩

end PocketClone

namespace PocketClone

/-- Statement `UPDATE articles SET ... WHERE id = ?` on a well-formed state, for a
`SET` clause that leaves the indexed columns alone: only the rows change. -/
theorem execUpdateArticles_state {s : DB} (h : WF s) (id : Int) (set : ArticleRow → ArticleRow)
    (hdoc : ∀ r, ftsDoc (set r) = ftsDoc r) :
    (execUpdateArticles id set s).2 =
      { s with articles := s.articles.map (fun r => if r.id = id then set r else r) } := by
  have hf := execUpdateArticles_fts h id set hdoc
  unfold execUpdateArticles at hf ⊢
  simp only at hf ⊢
  rw [hf]

/-- C5: on a well-formed store state `UpdateArticle` succeeds and changes nothing
except, in the article with the given id, the archived flag (set to the given
value when archived is present) and read_at (set to the current time when
markRead is present and true).  All other columns of that row, all other rows,
the tags, the tag associations and the index are as before; with no option
present the state is unchanged. -/
theorem updateArticle_frame (s : DB) (h : WF s) (now : Nat) (id : Int)
    (archived markRead : Option Bool) :
    UpdateArticle now id archived markRead s =
      (.ok (),
        { s with articles := s.articles.map (fun r =>
            if r.id = id then
              { r with
                archived := match archived with
                  | some a => if a then 1 else 0
                  | none => r.archived
                read_at := if markRead = some true then some now else r.read_at }
            else r) }) ∧
    (archived = none → markRead = none → UpdateArticle now id archived markRead s = (.ok (), s)) := by
  constructor
  · rw [UpdateArticle_state]
    cases archived with
    | none =>
      by_cases hm : markRead = some true
      · simp only [hm, if_true]
        rw [execUpdateArticles_state h id (fun r => { r with read_at := some now })
          (fun _ => rfl)]
      · simp only [hm, if_false]
        have : s.articles.map (fun r => if r.id = id then r else r) = s.articles := by
          conv_rhs => rw [← List.map_id s.articles]
          apply List.map_congr_left
          intro r _
          split <;> rfl
        rw [this]
    | some a =>
      have h1 : WF (execUpdateArticles id
          (fun r => { r with archived := if a then 1 else 0 }) s).2 :=
        WF_execUpdateArticles h id _ (fun _ => rfl) (fun _ => rfl) (fun _ => rfl)
      by_cases hm : markRead = some true
      · simp only [hm, if_true]
        rw [execUpdateArticles_state h1 id (fun r => { r with read_at := some now })
            (fun _ => rfl),
          execUpdateArticles_state h id (fun r => { r with archived := if a then 1 else 0 })
            (fun _ => rfl)]
        simp only [List.map_map]
        congr 2
        apply List.map_congr_left
        intro r _
        by_cases e : r.id = id <;> simp [e]
      · simp only [hm, if_false]
        rw [execUpdateArticles_state h id (fun r => { r with archived := if a then 1 else 0 })
          (fun _ => rfl)]
  · intro ha hm
    subst ha hm
    rfl

/-- Witness for C5: archiving an article that was marked read at time 9 keeps
its read_at. -/
theorem updateArticle_frame_witness :
    WF (run [.create 5 sampleGo, .create 6 sampleRust, .update 9 1 none (some true)]) ∧
    UpdateArticle 12 1 (some true) none
        (run [.create 5 sampleGo, .create 6 sampleRust, .update 9 1 none (some true)])
      = (.ok (), run [.create 5 sampleGo, .create 6 sampleRust,
          .update 9 1 (some true) (some true)]) ∧
    (run [.create 5 sampleGo, .create 6 sampleRust,
          .update 9 1 (some true) (some true)]).articles.map (fun r => (r.id, r.read_at, r.archived))
      = [(1, some 9, 1), (2, none, 0)] :=
  ⟨by decide,
    ((updateArticle_frame _ (by decide) 12 1 (some true) none).1).trans (by decide),
    by decide⟩

/-- C6 fails on the code: tag "go" is stored with id 1, two articles are saved
afterwards, and `CreateTag "go"` answers 2, the rowid of the last insert on the
connection, instead of 1. -/
theorem createTag_returns_last_insert_rowid :
    (∃ t ∈ (run [.createTag "go", .create 5 sampleGo, .create 6 sampleRust]).tags,
      t.Name = "go" ∧ t.ID = 1) ∧
    CreateTag "go" (run [.createTag "go", .create 5 sampleGo, .create 6 sampleRust])
      = (.ok 2, run [.createTag "go", .create 5 sampleGo, .create 6 sampleRust]) := by
  decide

/-- C7: on a well-formed store state `DeleteArticle id` succeeds and yields the
state without the article with that id, without the associations whose
article_id is id and without the index document of id, everything else being
unchanged; when no article has the id the state is unchanged; and `GetArticle id`
afterwards answers `ErrNoRows`, the not-found error. -/
theorem deleteArticle_effect (s : DB) (h : WF s) (id : Int) :
    DeleteArticle id s =
      (.ok (),
        { s with
          articles := s.articles.filter (fun r => ¬ r.id = id)
          article_tags := s.article_tags.filter (fun x => ¬ x.article_id = id)
          articles_fts := s.articles_fts.filter (fun d => ¬ d.rowid = id) }) ∧
    ((¬ ∃ r ∈ s.articles, r.id = id) → DeleteArticle id s = (.ok (), s)) ∧
    GetArticle id (DeleteArticle id s).2 = .error .ErrNoRows := by
  have hstate := execDeleteArticle_state h id
  refine ⟨?_, ?_, ?_⟩
  · rw [DeleteArticle_eq, hstate]
  · intro habs
    rw [DeleteArticle_eq]
    unfold execDeleteArticle
    have h0 := (filter_id_nil_iff id s.articles).2 habs
    simp only [h0, List.foldl_nil, filter_ne_id_of_absent id habs]
  · rw [DeleteArticle_eq, hstate]
    unfold GetArticle
    have : List.find? (fun r => decide (r.id = id))
        (s.articles.filter (fun r => ¬ r.id = id)) = none := by
      rw [List.find?_eq_none]
      intro r hr
      rw [List.mem_filter] at hr
      simpa using hr.2
    simp only [this]

/-- Witness for C7: deleting a tagged article. -/
theorem deleteArticle_effect_witness :
    WF (run [.create 5 sampleGo, .create 6 sampleRust, .createTag "go", .addTag 1 1]) ∧
    (DeleteArticle 1
      (run [.create 5 sampleGo, .create 6 sampleRust, .createTag "go", .addTag 1 1])).1
      = .ok () ∧
    (DeleteArticle 1
      (run [.create 5 sampleGo, .create 6 sampleRust, .createTag "go", .addTag 1 1])).2
      = (run [.create 5 sampleGo, .create 6 sampleRust, .createTag "go", .addTag 1 1,
          .delete 1]) ∧
    (run [.create 5 sampleGo, .create 6 sampleRust, .createTag "go", .addTag 1 1,
          .delete 1]).articles.map (fun r => r.id) = [2] ∧
    (run [.create 5 sampleGo, .create 6 sampleRust, .createTag "go", .addTag 1 1,
          .delete 1]).article_tags = [] ∧
    (run [.create 5 sampleGo, .create 6 sampleRust, .createTag "go", .addTag 1 1,
          .delete 1]).articles_fts.map (fun d => d.rowid) = [2] ∧
    GetArticle 1
      (DeleteArticle 1
        (run [.create 5 sampleGo, .create 6 sampleRust, .createTag "go", .addTag 1 1])).2
      = .error .ErrNoRows :=
  ⟨by decide,
    by rw [(deleteArticle_effect _ (by decide) 1).1],
    by rw [(deleteArticle_effect _ (by decide) 1).1]; decide,
    by decide, by decide, by decide,
    (deleteArticle_effect _ (by decide) 1).2.2⟩

end PocketClone

namespace PocketClone

theorem AddTagToArticle_present {s : DB} {articleID tagID : Int}
    (h : ∃ x ∈ s.article_tags, x.article_id = articleID ∧ x.tag_id = tagID) :
    AddTagToArticle articleID tagID s = (.ok (), s) := by
  unfold AddTagToArticle execInsertOrIgnoreArticleTag
  rw [if_pos h]

theorem AddTagToArticle_absent {s : DB} {articleID tagID : Int}
    (h : ¬ ∃ x ∈ s.article_tags, x.article_id = articleID ∧ x.tag_id = tagID)
    (ha : ∃ r ∈ s.articles, r.id = articleID) (ht : ∃ t ∈ s.tags, t.ID = tagID) :
    AddTagToArticle articleID tagID s =
      (.ok (),
        { s with
          article_tags := s.article_tags ++
            [{ rowid := maxRowid (s.article_tags.map (fun x => x.rowid)) + 1,
               article_id := articleID, tag_id := tagID }]
          last_insert_rowid := maxRowid (s.article_tags.map (fun x => x.rowid)) + 1 }) := by
  unfold AddTagToArticle execInsertOrIgnoreArticleTag
  rw [if_neg h, if_pos ⟨ha, ht⟩]

/-- Under the primary key of `article_tags` a stored pair is stored once. -/
theorem pair_count_one {l : List ArticleTagRow} {articleID tagID : Int}
    (hp : l.Pairwise (fun x y => ¬ (x.article_id = y.article_id ∧ x.tag_id = y.tag_id)))
    (h : ∃ x ∈ l, x.article_id = articleID ∧ x.tag_id = tagID) :
    (l.filter (fun x => x.article_id = articleID ∧ x.tag_id = tagID)).length = 1 := by
  induction l with
  | nil => obtain ⟨x, hx, -⟩ := h; cases hx
  | cons b t ih =>
    rw [List.pairwise_cons] at hp
    obtain ⟨hb, ht⟩ := hp
    by_cases e : b.article_id = articleID ∧ b.tag_id = tagID
    · have hnil : t.filter (fun x => x.article_id = articleID ∧ x.tag_id = tagID) = [] := by
        rw [List.filter_eq_nil_iff]
        intro c hc
        simp only [decide_eq_true_eq]
        intro e2
        exact hb c hc ⟨e.1.trans e2.1.symm, e.2.trans e2.2.symm⟩
      rw [List.filter_cons_of_pos (by simp only [decide_eq_true_eq]; exact e), hnil]
      rfl
    · have h2 : ∃ x ∈ t, x.article_id = articleID ∧ x.tag_id = tagID := by
        obtain ⟨x, hx, ex⟩ := h
        rcases List.mem_cons.1 hx with hx | hx
        · subst hx; exact absurd ex e
        · exact ⟨x, hx, ex⟩
      simp only [List.filter_cons, e, decide_False, Bool.false_eq_true, if_false]
      exact ih ht h2

/-- C8: on a well-formed store state, attaching a tag to a stored article, both
referred to by the ids of stored rows, succeeds; attaching the same pair again
succeeds and changes nothing, and exactly one association of the pair is
stored.  Detaching a pair that is not associated succeeds and leaves the state
unchanged. -/
theorem tagging_idempotent (s : DB) (h : WF s) (articleID tagID : Int) :
    ((∃ r ∈ s.articles, r.id = articleID) → (∃ t ∈ s.tags, t.ID = tagID) →
      (AddTagToArticle articleID tagID s).1 = .ok () ∧
      AddTagToArticle articleID tagID (AddTagToArticle articleID tagID s).2
        = (.ok (), (AddTagToArticle articleID tagID s).2) ∧
      ((AddTagToArticle articleID tagID s).2.article_tags.filter
        (fun x => x.article_id = articleID ∧ x.tag_id = tagID)).length = 1) ∧
    ((¬ ∃ x ∈ s.article_tags, x.article_id = articleID ∧ x.tag_id = tagID) →
      RemoveTagFromArticle articleID tagID s = (.ok (), s)) := by
  constructor
  · intro ha ht
    by_cases hp : ∃ x ∈ s.article_tags, x.article_id = articleID ∧ x.tag_id = tagID
    · rw [AddTagToArticle_present hp]
      exact ⟨rfl, AddTagToArticle_present hp, pair_count_one h.2.2.2.2 hp⟩
    · rw [AddTagToArticle_absent hp ha ht]
      refine ⟨rfl, ?_, ?_⟩
      · apply AddTagToArticle_present
        exact ⟨_, List.mem_append_right _ (List.mem_singleton_self _), rfl, rfl⟩
      · have hnil : s.article_tags.filter
            (fun x => x.article_id = articleID ∧ x.tag_id = tagID) = [] := by
          rw [List.filter_eq_nil_iff]
          intro c hc
          simp only [decide_eq_true_eq]
          exact fun e => hp ⟨c, hc, e⟩
        show ((s.article_tags ++ [_]).filter _).length = 1
        rw [List.filter_append, hnil, List.nil_append,
          List.filter_cons_of_pos (by simp),
          List.filter_nil]
        rfl
  · intro hp
    rw [RemoveTagFromArticle_eq]
    unfold execDeleteArticleTag
    have : s.article_tags.filter
        (fun x => ¬ (x.article_id = articleID ∧ x.tag_id = tagID)) = s.article_tags := by
      rw [List.filter_eq_self]
      intro c hc
      simp only [decide_not, Bool.not_eq_eq_eq_not, Bool.not_true, decide_eq_false_iff_not]
      exact fun e => hp ⟨c, hc, e⟩
    simp only [this]

/-- Witness for C8: article 1 and tag 1 of the sample store, not yet associated. -/
theorem tagging_idempotent_witness :
    WF sampleTagged ∧
    (∃ r ∈ sampleTagged.articles, r.id = 1) ∧ (∃ t ∈ sampleTagged.tags, t.ID = 1) ∧
    (¬ ∃ x ∈ sampleTagged.article_tags, x.article_id = 1 ∧ x.tag_id = 1) ∧
    ((AddTagToArticle 1 1 sampleTagged).1 = .ok () ∧
      AddTagToArticle 1 1 (AddTagToArticle 1 1 sampleTagged).2
        = (.ok (), (AddTagToArticle 1 1 sampleTagged).2) ∧
      ((AddTagToArticle 1 1 sampleTagged).2.article_tags.filter
        (fun x => x.article_id = 1 ∧ x.tag_id = 1)).length = 1) ∧
    RemoveTagFromArticle 1 1 sampleTagged = (.ok (), sampleTagged) :=
  ⟨by decide, by decide, by decide, by decide,
    (tagging_idempotent sampleTagged (by decide) 1 1).1 (by decide) (by decide),
    (tagging_idempotent sampleTagged (by decide) 1 1).2 (by decide)⟩

/-- C9: on a well-formed store state, `CreateArticle` of an article whose url is
not stored returns an id larger than every stored id and than every id assigned
before, and `GetArticle` of that id in the resulting state returns the article
with the given url, title, content, text_content, excerpt, author and
image_url, saved at the current time, with no tags, not archived and not read. -/
theorem createArticle_then_get (s : DB) (h : WF s) (now : Nat) (article : Article)
    (hnew : ¬ ∃ r ∈ s.articles, r.url = article.URL) :
    ∃ id, (CreateArticle now article s).1 = .ok id ∧
      (∀ r ∈ s.articles, r.id < id) ∧ s.seq_articles < id ∧
      GetArticle id (CreateArticle now article s).2 =
        .ok { ID := id, URL := article.URL, Title := article.Title, Content := article.Content,
              TextContent := article.TextContent, Excerpt := article.Excerpt,
              Author := article.Author, ImageURL := article.ImageURL, SavedAt := now,
              ReadAt := none, Archived := false, Tags := [] } := by
  obtain ⟨-, -, -, h4, -⟩ := h
  have hlt : ∀ a ∈ s.articles,
      a.id < nextAutoincrement s.seq_articles (s.articles.map (fun r => r.id)) :=
    fun a ha => lt_nextAutoincrement _ (List.mem_map_of_mem (fun r => r.id) ha)
  have hseq : s.seq_articles < nextAutoincrement s.seq_articles (s.articles.map (fun r => r.id)) := by
    have : s.seq_articles ≤ max s.seq_articles (maxRowid (s.articles.map (fun r => r.id))) :=
      le_max_left _ _
    unfold nextAutoincrement
    omega
  refine ⟨nextAutoincrement s.seq_articles (s.articles.map (fun r => r.id)), ?_, hlt, hseq, ?_⟩
  · unfold CreateArticle execInsertArticle
    rw [if_neg hnew]
  · unfold CreateArticle execInsertArticle
    rw [if_neg hnew]
    simp only []
    unfold GetArticle GetArticleTags
    have hfind : List.find?
        (fun r => decide (r.id = nextAutoincrement s.seq_articles (s.articles.map (fun r => r.id))))
        s.articles = none := by
      rw [List.find?_eq_none]
      intro r hr
      have := hlt r hr
      simp only [decide_eq_true_eq]
      omega
    have hnames : ∀ t ∈ s.tags,
        (s.article_tags.filter (fun x => x.tag_id = t.ID ∧
          x.article_id = nextAutoincrement s.seq_articles (s.articles.map (fun r => r.id)))).map
          (fun _ => t.Name) = [] := by
      intro t _
      rw [List.map_eq_nil_iff, List.filter_eq_nil_iff]
      intro x hx
      obtain ⟨r, hr, e⟩ := h4 x hx
      have := hlt r hr
      simp only [decide_eq_true_eq]
      omega
    simp only [List.find?_append, hfind, Option.none_or, List.find?_cons_of_pos, decide_True,
      List.flatMap_eq_nil_iff.2 hnames, List.insertionSort]
    simp

/-- Witness for C9: saving a second article in a store that holds one. -/
theorem createArticle_then_get_witness :
    WF (run [.create 5 sampleGo]) ∧
    (¬ ∃ r ∈ (run [.create 5 sampleGo]).articles, r.url = sampleRust.URL) ∧
    ∃ id, (CreateArticle 8 sampleRust (run [.create 5 sampleGo])).1 = .ok id ∧
      (∀ r ∈ (run [.create 5 sampleGo]).articles, r.id < id) ∧
      (run [.create 5 sampleGo]).seq_articles < id ∧
      GetArticle id (CreateArticle 8 sampleRust (run [.create 5 sampleGo])).2 =
        .ok { ID := id, URL := sampleRust.URL, Title := sampleRust.Title,
              Content := sampleRust.Content, TextContent := sampleRust.TextContent,
              Excerpt := sampleRust.Excerpt, Author := sampleRust.Author,
              ImageURL := sampleRust.ImageURL, SavedAt := 8,
              ReadAt := none, Archived := false, Tags := [] } :=
  ⟨by decide, by decide,
    createArticle_then_get (run [.create 5 sampleGo]) (by decide) 8 sampleRust (by decide)⟩

end PocketClone

namespace PocketClone

theorem limitOffset_page {α : Type} (K n : Nat) (rows : List α) :
    limitOffset (K : Int) ((K : Int) * (n : Int)) rows = (rows.drop (n * K)).take K := by
  have h1 : ((K : Int) * (n : Int)).toNat = n * K := by
    have : ((K : Int) * (n : Int)) = ((n * K : Nat) : Int) := by
      push_cast
      exact Int.mul_comm _ _
    rw [this, Int.toNat_ofNat]
  have h2 : ¬ (K : Int) < 0 := by omega
  unfold limitOffset
  simp only [h1, h2, if_false, Int.toNat_ofNat]

/-- Clause `ORDER BY saved_at DESC` over rows with distinct `saved_at`: strictly
newest first. -/
theorem orderBySavedAtDesc_strict {l : List ArticleRow}
    (hd : (l.map (fun r => r.saved_at)).Nodup) :
    (orderBySavedAtDesc l).Pairwise (fun a b => b.saved_at < a.saved_at) := by
  haveI : IsTotal ArticleRow (fun a b => b.saved_at ≤ a.saved_at) :=
    ⟨fun a b => Nat.le_total b.saved_at a.saved_at⟩
  haveI : IsTrans ArticleRow (fun a b => b.saved_at ≤ a.saved_at) :=
    ⟨fun _ _ _ hab hbc => Nat.le_trans hbc hab⟩
  have hs : (orderBySavedAtDesc l).Pairwise (fun a b => b.saved_at ≤ a.saved_at) :=
    List.sorted_insertionSort (fun a b : ArticleRow => b.saved_at ≤ a.saved_at) l
  have hn : ((orderBySavedAtDesc l).map (fun r => r.saved_at)).Nodup :=
    ((orderBySavedAtDesc_perm l).map _).nodup_iff.2 hd
  have hne : (orderBySavedAtDesc l).Pairwise (fun a b => a.saved_at ≠ b.saved_at) := by
    unfold List.Nodup at hn
    rwa [List.pairwise_map] at hn
  exact (hs.and hne).imp (fun h => Nat.lt_of_le_of_ne h.1 (Ne.symm h.2))

theorem listPages_eq_take (archived : Option Bool) (K : Nat) (s : DB) (n : Nat) :
    listPages archived (K : Int) s n =
      .ok (((orderBySavedAtDesc (whereArchived archived s.articles)).map scanSummary).take
        (n * K)) := by
  induction n with
  | zero => simp [listPages]
  | succ m ih =>
    simp only [listPages, ih, ListArticles, limitOffset_page]
    rw [Nat.succ_mul, List.take_add, List.map_take, List.map_drop]

/-- C10: when the stored articles have pairwise distinct saved_at and the page
size k is positive, reading `ListArticles` at offsets 0, k, 2k, ... with one
archived filter and no write in between always succeeds and the concatenation
of the first n pages is the first n*k entries of one list `full`.  That list
holds every matching article exactly once (it is a permutation of the
matching rows) strictly newest first, and as soon as n*k reaches its length the
pages read so far are the whole of it. -/
theorem listArticles_pages (s : DB) (archived : Option Bool) (k : Int) (hk : 0 < k)
    (hd : (s.articles.map (fun r => r.saved_at)).Nodup) :
    ∃ full : List Article,
      full.Perm ((whereArchived archived s.articles).map scanSummary) ∧
      full.Pairwise (fun a b => b.SavedAt < a.SavedAt) ∧
      full.Nodup ∧
      (∀ n : Nat, listPages archived k s n = .ok (full.take (n * k.toNat))) ∧
      (∀ n : Nat, full.length ≤ n * k.toNat → listPages archived k s n = .ok full) := by
  obtain ⟨K, rfl⟩ := Int.eq_ofNat_of_zero_le (le_of_lt hk)
  have hd2 : ((whereArchived archived s.articles).map (fun r => r.saved_at)).Nodup :=
    hd.sublist ((whereArchived_sublist archived s.articles).map _)
  have hstrict : ((orderBySavedAtDesc (whereArchived archived s.articles)).map
      scanSummary).Pairwise (fun a b => b.SavedAt < a.SavedAt) := by
    rw [List.pairwise_map]
    exact orderBySavedAtDesc_strict hd2
  refine ⟨(orderBySavedAtDesc (whereArchived archived s.articles)).map scanSummary,
    (orderBySavedAtDesc_perm _).map _, hstrict, ?_, ?_, ?_⟩
  · exact hstrict.imp (fun h e => by rw [e] at h; exact Nat.lt_irrefl _ h)
  · intro n
    rw [listPages_eq_take, Int.toNat_ofNat]
  · intro n hn
    rw [listPages_eq_take, List.take_of_length_le]
    rwa [Int.toNat_ofNat] at hn

/-- Witness for C10: four articles saved at distinct times read in two pages
of two, with and without the archived filter. -/
theorem listArticles_pages_witness :
    (0 : Int) < 2 ∧ (sampleFour.articles.map (fun r => r.saved_at)).Nodup ∧
    (∃ full : List Article,
      full.Perm ((whereArchived none sampleFour.articles).map scanSummary) ∧
      full.Pairwise (fun a b => b.SavedAt < a.SavedAt) ∧
      full.Nodup ∧
      (∀ n : Nat, listPages none 2 sampleFour n = .ok (full.take (n * (2 : Int).toNat))) ∧
      (∀ n : Nat, full.length ≤ n * (2 : Int).toNat → listPages none 2 sampleFour n = .ok full)) ∧
    (ListArticles none 2 0 sampleFour).map (fun l => l.map (fun a => a.ID)) = .ok [4, 3] ∧
    (ListArticles none 2 2 sampleFour).map (fun l => l.map (fun a => a.ID)) = .ok [2, 1] ∧
    (listPages none 2 sampleFour 2).map (fun l => l.map (fun a => a.ID)) = .ok [4, 3, 2, 1] ∧
    (listPages (some false) 2 sampleFour 2).map (fun l => l.map (fun a => a.ID)) = .ok [4, 3, 1] :=
  ⟨by decide, by decide, listArticles_pages sampleFour none 2 (by decide) (by decide),
    by decide, by decide, by decide, by decide⟩

end PocketClone

namespace PocketClone

theorem Atoi_empty : Atoi "" = none := by decide

/-- The limit of `Handler.ListArticles` is the parsed value when it lies in 1..100
and 50 otherwise. -/
theorem listLimit_of_parsed {l : String} {n : Int} (h : Atoi l = some n) :
    Handler.listLimit l = if 0 < n ∧ n ≤ 100 then n else 50 := by
  have hne : l ≠ "" := by
    intro e
    rw [e, Atoi_empty] at h
    cases h
  unfold Handler.listLimit
  rw [if_pos hne, h]

/-- The limit of `Handler.Search` is the parsed value when it lies in 1..50 and 20
otherwise. -/
theorem searchLimit_of_parsed {l : String} {n : Int} (h : Atoi l = some n) :
    Handler.searchLimit l = if 0 < n ∧ n ≤ 50 then n else 20 := by
  have hne : l ≠ "" := by
    intro e
    rw [e, Atoi_empty] at h
    cases h
  unfold Handler.searchLimit
  rw [if_pos hne, h]

theorem listLimit_range (l : String) :
    1 ≤ Handler.listLimit l ∧ Handler.listLimit l ≤ 100 := by
  unfold Handler.listLimit
  split
  · split
    · split <;> omega
    · omega
  · omega

theorem searchLimit_range (l : String) :
    1 ≤ Handler.searchLimit l ∧ Handler.searchLimit l ≤ 50 := by
  unfold Handler.searchLimit
  split
  · split
    · split <;> omega
    · omega
  · omega

theorem listOffset_nonneg (o : String) : 0 ≤ Handler.listOffset o := by
  unfold Handler.listOffset
  split
  · split
    · split <;> omega
    · omega
  · omega

/-- C11 as stated fails: a requested limit of 150 makes `Handler.ListArticles` pass
50, not the maximum 100, and a requested limit of 75 makes `Handler.Search` pass
20, not the maximum 50. -/
theorem limit_above_maximum_gets_default :
    Atoi "150" = some 150 ∧ Handler.listLimit "150" = 50 ∧
      Handler.listLimit "150" ≠ min 150 100 ∧
    Atoi "75" = some 75 ∧ Handler.searchLimit "75" = 20 ∧
      Handler.searchLimit "75" ≠ min 75 50 := by
  decide

/-- C11 amended: for every requested positive integer n the limit handed to the
store is n itself when n is at most the maximum (100 for listing, 50 for
search) and the default (50 for listing, 20 for search) when n is above it; for
every value of the parameter the limit lies between 1 and the maximum, and the
offset handed to the store is never negative. -/
theorem handler_limit_offset (l : String) (n : Int) (h : Atoi l = some n) (hn : 0 < n) :
    Handler.listLimit l = (if n ≤ 100 then n else 50) ∧
    Handler.searchLimit l = (if n ≤ 50 then n else 20) ∧
    (∀ x : String, 1 ≤ Handler.listLimit x ∧ Handler.listLimit x ≤ 100) ∧
    (∀ x : String, 1 ≤ Handler.searchLimit x ∧ Handler.searchLimit x ≤ 50) ∧
    (∀ o : String, 0 ≤ Handler.listOffset o) := by
  refine ⟨?_, ?_, listLimit_range, searchLimit_range, listOffset_nonneg⟩
  · rw [listLimit_of_parsed h]
    by_cases h1 : n ≤ 100
    · rw [if_pos ⟨hn, h1⟩, if_pos h1]
    · rw [if_neg (fun c => h1 c.2), if_neg h1]
  · rw [searchLimit_of_parsed h]
    by_cases h1 : n ≤ 50
    · rw [if_pos ⟨hn, h1⟩, if_pos h1]
    · rw [if_neg (fun c => h1 c.2), if_neg h1]

/-- Witness for C11 amended: a requested limit of 75, which is within the
maximum for listing and above it for search. -/
theorem handler_limit_offset_witness :
    Atoi "75" = some 75 ∧ (0 : Int) < 75 ∧
    (Handler.listLimit "75" = (if (75 : Int) ≤ 100 then 75 else 50) ∧
      Handler.searchLimit "75" = (if (75 : Int) ≤ 50 then 75 else 20) ∧
      (∀ x : String, 1 ≤ Handler.listLimit x ∧ Handler.listLimit x ≤ 100) ∧
      (∀ x : String, 1 ≤ Handler.searchLimit x ∧ Handler.searchLimit x ≤ 50) ∧
      (∀ o : String, 0 ≤ Handler.listOffset o)) ∧
    Handler.listLimit "75" = 75 ∧ Handler.searchLimit "75" = 20 ∧
    Handler.listOffset "-3" = 0 ∧ Handler.listOffset "40" = 40 :=
  ⟨by decide, by decide, handler_limit_offset "75" 75 (by decide) (by decide),
    by decide, by decide, by decide, by decide⟩

end PocketClone
